import Mathlib

/-!
Shallow embedding of the shared people-database durable object
(`SharedPeopleDB` in `src/index.ts`) together with the MCP tool layer
facts the specification talks about.  Pure data is modelled by Lean
structures, the actor's state (in-memory collection, durable blob,
hydration flag) by an explicit `DB` record, and each HTTP route of
`SharedPeopleDB.fetch` by a function from `DB` and a typed request to a
new `DB` and a typed response.
-/

namespace PeopleDB

/-- A person record, translated from the `Person` type of `src/index.ts`.
Ids are natural numbers (the code only ever assigns positive integers);
ages are integers (the declared domain is the integer range [1,120]). -/
structure Person where
  id : Nat
  name : String
  age : Int
  gender : String
  jobTitle : String
  email : String
deriving DecidableEq, Repr

/-- State of one `SharedPeopleDB` durable-object instance: the in-memory
collection `people`, the durable blob stored under the key "people"
(`none` when the key is absent), and the `initialized` flag. -/
structure DB where
  people : List Person
  store : Option (List Person)
  initialized : Bool
deriving DecidableEq, Repr

/-- The fixed 5-record seed set written on first hydration of an empty
store, copied from `initializeIfNeeded` in `src/index.ts`. -/
def seedPeople : List Person :=
  [ { id := 1, name := "Sarah Johnson", age := 28, gender := "Female",
      jobTitle := "Software Engineer", email := "sarah.johnson@techcorp.com" },
    { id := 2, name := "Michael Chen", age := 34, gender := "Male",
      jobTitle := "Product Manager", email := "m.chen@innovate.io" },
    { id := 3, name := "Emma Rodriguez", age := 31, gender := "Female",
      jobTitle := "UX Designer", email := "emma.r@designstudio.com" },
    { id := 4, name := "James Wilson", age := 42, gender := "Male",
      jobTitle := "Data Scientist", email := "jwilson@datatech.org" },
    { id := 5, name := "Alex Thompson", age := 26, gender := "Non-binary",
      jobTitle := "DevOps Engineer", email := "alex.thompson@cloudops.net" } ]

/-- `initializeIfNeeded`: if already initialized do nothing; otherwise read
the blob; if present adopt it, if absent install the seed collection and
write it to the store; either way mark the instance initialized. -/
def initializeIfNeeded (db : DB) : DB :=
  if db.initialized then db
  else
    match db.store with
    | some stored => { people := stored, store := db.store, initialized := true }
    | none => { people := seedPeople, store := some seedPeople, initialized := true }

/-- `startsWith hs needle`: the char list `hs` begins with `needle`. -/
def startsWith : List Char → List Char → Bool
  | _, [] => true
  | [], _ :: _ => false
  | c :: cs, d :: ds => c == d && startsWith cs ds

/-- `hasSub hs needle`: `needle` occurs contiguously inside `hs`
(the semantics of JavaScript `String.prototype.includes`). -/
def hasSub : List Char → List Char → Bool
  | [], needle => needle.isEmpty
  | c :: cs, needle => startsWith (c :: cs) needle || hasSub cs needle

/-- String-level substring test: `strIncludes s sub` holds when `sub`
occurs contiguously in `s`, as JavaScript `s.includes(sub)`. -/
def strIncludes (s sub : String) : Bool :=
  hasSub s.data sub.data

/-- Character-wise ASCII lower-casing, the model of JavaScript
`String.prototype.toLowerCase` on the ASCII range the claims speak about. -/
def lowerStr (s : String) : String :=
  ⟨s.data.map Char.toLower⟩

/-- The search predicate of the `/search` route:
`p.name.toLowerCase().includes(searchTerm)` with `searchTerm` the
lowercased query. -/
def nameMatches (p : Person) (q : String) : Bool :=
  strIncludes (lowerStr p.name) (lowerStr q)

/-- Typed response of the `/search` route. -/
inductive SearchResult where
  | missingQuery
  | noMatch (availablePeople : List String)
  | found (person : Person)
deriving DecidableEq, Repr

/-- The `/search` route: reject a missing or empty query, otherwise return
the first record whose lowercased name contains the lowercased query, or a
no-match error carrying every current name. -/
def searchOp (people : List Person) (q : String) : SearchResult :=
  if q == "" then .missingQuery
  else
    match people.find? (fun p => nameMatches p q) with
    | some p => .found p
    | none => .noMatch (people.map (fun p => p.name))

/-- Input of the `/add` route (the new record's fields, id excluded). -/
structure AddReq where
  name : String
  age : Int
  gender : String
  jobTitle : String
  email : String
deriving DecidableEq, Repr

/-- The id generator of `/add`: `Math.max(...this.people.map(p => p.id), 0)`. -/
def maxId (people : List Person) : Nat :=
  (people.map (fun p => p.id)).foldr max 0

/-- The duplicate-email scan of `/add`:
`this.people.find(p => p.email.toLowerCase() === email.toLowerCase())`. -/
def addEmailConflict (people : List Person) (email : String) : Option Person :=
  people.find? (fun p => lowerStr p.email == lowerStr email)

/-- Typed response of the `/add` route. -/
inductive AddResult where
  | conflict (existing : Person)
  | ok (person : Person)
deriving DecidableEq, Repr

/-- The `/add` route: refuse when some record already holds the email up
to lower-casing; otherwise append a record with id `max(ids, 0) + 1` and
persist the whole collection. -/
def addOp (db : DB) (r : AddReq) : DB × AddResult :=
  match addEmailConflict db.people r.email with
  | some existing => (db, .conflict existing)
  | none =>
    let newId := maxId db.people + 1
    let newPerson : Person :=
      { id := newId, name := r.name, age := r.age, gender := r.gender,
        jobTitle := r.jobTitle, email := r.email }
    let newPeople := db.people ++ [newPerson]
    ({ people := newPeople, store := some newPeople, initialized := db.initialized },
     .ok newPerson)

/-- The `/add` conflict error text:
`Email "<email>" already exists for <name> (ID: <id>)`. -/
def addConflictMsg (email : String) (owner : Person) : String :=
  "Email \"" ++ email ++ "\" already exists for " ++ owner.name
    ++ " (ID: " ++ toString owner.id ++ ")"

/-- Input of the `/update` route: the target id plus optional replacement
fields (`none` models an absent/undefined JSON field). -/
structure UpdateReq where
  id : Nat
  name : Option String
  age : Option Int
  gender : Option String
  jobTitle : Option String
  email : Option String
deriving DecidableEq, Repr

/-- JavaScript truthiness of an optional string: `undefined`/`null` and
the empty string are falsy. -/
def optTruthy : Option String → Bool
  | none => false
  | some s => !(s == "")

/-- JavaScript `Array.prototype.findIndex`, returning `none` instead
of -1. -/
def findIndex (pred : Person → Bool) : List Person → Option Nat
  | [] => none
  | p :: ps => if pred p then some 0 else (findIndex pred ps).map (fun i => i + 1)

/-- The email-collision scan of `/update`, guarded by `if (email)`:
a different record already holding the proposed email up to lower-casing. -/
def updateConflict (people : List Person) (r : UpdateReq) : Option Person :=
  if optTruthy r.email then
    people.find? (fun p =>
      lowerStr p.email == lowerStr (r.email.getD "") && !(p.id == r.id))
  else none

/-- Fallback record for indexing that is statically in bounds
(mirrors the unchecked array access `this.people[personIndex]`). -/
def noPerson : Person :=
  { id := 0, name := "", age := 0, gender := "", jobTitle := "", email := "" }

/-- Typed response of the `/update` route. -/
inductive UpdateResult where
  | notFound (availableIds : List (Nat × String))
  | conflict (existing : Person)
  | ok (person : Person)
deriving DecidableEq, Repr

/-- The merged record built by `/update`: each provided field replaces the
current one (`?? `semantics: `none` keeps the old value), the id is kept. -/
def mergePerson (cur : Person) (r : UpdateReq) : Person :=
  { id := cur.id,
    name := r.name.getD cur.name,
    age := r.age.getD cur.age,
    gender := r.gender.getD cur.gender,
    jobTitle := r.jobTitle.getD cur.jobTitle,
    email := r.email.getD cur.email }

/-- The `/update` route: locate the first record with the given id (404
with the id/name directory when absent), check the email collision, then
replace that record in place and persist. -/
def updateOp (db : DB) (r : UpdateReq) : DB × UpdateResult :=
  match findIndex (fun p => p.id == r.id) db.people with
  | none => (db, .notFound (db.people.map (fun p => (p.id, p.name))))
  | some i =>
    match updateConflict db.people r with
    | some existing => (db, .conflict existing)
    | none =>
      let cur := db.people.getD i noPerson
      let updated := mergePerson cur r
      let newPeople := db.people.set i updated
      ({ people := newPeople, store := some newPeople, initialized := db.initialized },
       .ok updated)

/-- Typed response of the `/delete` route. -/
inductive DeleteResult where
  | notFound (availableIds : List (Nat × String))
  | ok (deletedPerson : Person)
deriving DecidableEq, Repr

/-- The `/delete` route: locate the first record with the given id (404
with the id/name directory when absent), snapshot it, drop every record
with that id and persist. -/
def deleteOp (db : DB) (id : Nat) : DB × DeleteResult :=
  match findIndex (fun p => p.id == id) db.people with
  | none => (db, .notFound (db.people.map (fun p => (p.id, p.name))))
  | some i =>
    let deleted := db.people.getD i noPerson
    let newPeople := db.people.filter (fun p => !(p.id == id))
    ({ people := newPeople, store := some newPeople, initialized := db.initialized },
     .ok deleted)

/-- The `delete_person` tool's in-memory people field: the MCP agent class
`MyMCP` declares no `people` member, so `this.people` is `undefined`. -/
def mcpAgentPeople : Option (List Person) := none

/-- The remaining-count fragment the `delete_person` tool prints:
`this.people?.length || 'Unknown'` (a missing field, and also a zero
length, render as "Unknown"). -/
def deleteRemainingDisplay : String :=
  match mcpAgentPeople with
  | none => "Unknown"
  | some l => if l.length == 0 then "Unknown" else toString l.length

/-- Age-bracket membership 18-25 from `/stats`. -/
def inAge18to25 (p : Person) : Bool :=
  decide (18 ≤ p.age) && decide (p.age ≤ 25)

/-- Age-bracket membership 26-35 from `/stats`. -/
def inAge26to35 (p : Person) : Bool :=
  decide (26 ≤ p.age) && decide (p.age ≤ 35)

/-- Age-bracket membership 36-45 from `/stats`. -/
def inAge36to45 (p : Person) : Bool :=
  decide (36 ≤ p.age) && decide (p.age ≤ 45)

/-- Age-bracket membership 46+ from `/stats`. -/
def inAge46plus (p : Person) : Bool :=
  decide (46 ≤ p.age)

/-- A record is counted by some age bracket of `/stats`. -/
def inSomeBracket (p : Person) : Bool :=
  inAge18to25 p || inAge26to35 p || inAge36to45 p || inAge46plus p

/-- One step of the gender tally
`acc[p.gender] = (acc[p.gender] || 0) + 1` on an insertion-ordered
association list. -/
def bumpGender (acc : List (String × Nat)) (g : String) : List (String × Nat) :=
  if acc.any (fun kv => kv.1 == g) then
    acc.map (fun kv => if kv.1 == g then (kv.1, kv.2 + 1) else kv)
  else acc ++ [(g, 1)]

/-- Aggregate returned by the `/stats` route. -/
structure Stats where
  totalPeople : Nat
  age18to25 : Nat
  age26to35 : Nat
  age36to45 : Nat
  age46plus : Nat
  genderCount : List (String × Nat)
deriving DecidableEq, Repr

/-- The `/stats` route: total count, the four fixed age brackets, and the
per-gender tally. -/
def statsOp (people : List Person) : Stats :=
  { totalPeople := people.length,
    age18to25 := (people.filter inAge18to25).length,
    age26to35 := (people.filter inAge26to35).length,
    age36to45 := (people.filter inAge36to45).length,
    age46plus := (people.filter inAge46plus).length,
    genderCount := people.foldl (fun acc p => bumpGender acc p.gender) [] }

/-- Sum of the four age-bracket counts of a `/stats` aggregate. -/
def bracketSum (s : Stats) : Nat :=
  s.age18to25 + s.age26to35 + s.age36to45 + s.age46plus

/-- A typed request to `SharedPeopleDB.fetch`. -/
inductive Req where
  | search (q : String)
  | list
  | add (r : AddReq)
  | update (r : UpdateReq)
  | delete (id : Nat)
  | stats
deriving DecidableEq, Repr

/-- A typed response from `SharedPeopleDB.fetch`. -/
inductive Resp where
  | search (res : SearchResult)
  | list (people : List Person)
  | add (res : AddResult)
  | update (res : UpdateResult)
  | delete (res : DeleteResult)
  | stats (res : Stats)
deriving DecidableEq, Repr

/-- Route dispatch of `SharedPeopleDB.fetch` on an already-hydrated state. -/
def dispatch (db : DB) : Req → DB × Resp
  | .search q => (db, .search (searchOp db.people q))
  | .list => (db, .list db.people)
  | .add r =>
    let out := addOp db r
    (out.1, .add out.2)
  | .update r =>
    let out := updateOp db r
    (out.1, .update out.2)
  | .delete id =>
    let out := deleteOp db id
    (out.1, .delete out.2)
  | .stats => (db, .stats (statsOp db.people))

/-- `SharedPeopleDB.fetch`: hydrate if needed, then dispatch. -/
def handle (db : DB) (req : Req) : DB × Resp :=
  dispatch (initializeIfNeeded db) req

/-- Run a sequence of `/add` requests, returning the final state and the
number of successful adds. -/
def runAdds (db : DB) : List AddReq → DB × Nat
  | [] => (db, 0)
  | r :: rs =>
    let out := addOp db r
    let rest := runAdds out.1 rs
    (rest.1, (match out.2 with | .ok _ => 1 | .conflict _ => 0) + rest.2)

/-- The collection invariant: pairwise-distinct ids and pairwise-distinct
lower-cased emails. -/
def Invariant (people : List Person) : Prop :=
  people.Pairwise (fun p q => p.id ≠ q.id ∧ lowerStr p.email ≠ lowerStr q.email)

instance (people : List Person) : Decidable (Invariant people) := by
  unfold Invariant
  infer_instance

/-- Side condition supplied by the tool layer's zod validation: an email
provided to `/update` is a syntactically valid email and hence nonempty. -/
def reqEmailOk : Req → Prop
  | .update r => ∀ s, r.email = some s → s ≠ ""
  | _ => True

/-- Outcome of the `add_person` MCP tool call. -/
inductive ToolAddResult where
  | invalidInput
  | dbResult (res : AddResult)
deriving DecidableEq, Repr

/-- Modelled from the spec: the `add_person` tool's zod input gate
(`age: z.number().min(1).max(120)`, `email: z.string().email()`); the
email-syntax predicate is zod library code absent from the repository, so
it is abstracted as the parameter `emailValid`.  When validation fails the
handler, and hence the durable object, is never invoked. -/
def addPersonTool (emailValid : String → Bool) (db : DB) (r : AddReq) :
    DB × ToolAddResult :=
  if (decide (1 ≤ r.age) && decide (r.age ≤ 120)) && emailValid r.email then
    let out := addOp (initializeIfNeeded db) r
    (out.1, .dbResult out.2)
  else (db, .invalidInput)

/-- A concrete email-syntax predicate for witnesses: the string mentions
an `@`. -/
def emailValid0 (s : String) : Bool :=
  strIncludes s "@"

/-- The freshly hydrated initial database (empty store, first operation). -/
def db0 : DB :=
  initializeIfNeeded { people := [], store := none, initialized := false }

/-- Concrete add request used by the spec's own scenario. -/
def danaReq : AddReq :=
  { name := "Dana Lee", age := 29, gender := "Female",
    jobTitle := "Analyst", email := "dana@x.com" }

/-- Concrete update request that supplies only a new age. -/
def ageOnlyReq : UpdateReq :=
  { id := 3, name := none, age := some 32, gender := none,
    jobTitle := none, email := none }

/-- A record whose age lies in the [1,17] gap below every stats bracket. -/
def kidPerson : Person :=
  { id := 6, name := "Kid Example", age := 10, gender := "Male",
    jobTitle := "Student", email := "kid@example.com" }

/-! ### Helper lemmas -/

/-- Every id in the collection is bounded by `maxId`. -/
theorem le_maxId {people : List Person} {p : Person} (hp : p ∈ people) :
    p.id ≤ maxId people := by
  induction people with
  | nil => cases hp
  | cons q qs ih =>
    rcases List.mem_cons.mp hp with h | h
    · subst h
      exact Nat.le_max_left _ _
    · exact Nat.le_trans (ih h) (Nat.le_max_right _ _)

/-- A char list starts with itself followed by anything. -/
theorem startsWith_append (ys zs : List Char) :
    startsWith (ys ++ zs) ys = true := by
  induction ys with
  | nil => cases zs <;> rfl
  | cons y ys ih => simp [startsWith, ih]

/-- The empty needle occurs in every char list. -/
theorem hasSub_nil (l : List Char) : hasSub l [] = true := by
  cases l <;> rfl

/-- A needle occurs in any char list that contains it contiguously. -/
theorem hasSub_append_middle (xs ys zs : List Char) :
    hasSub (xs ++ (ys ++ zs)) ys = true := by
  induction xs with
  | nil =>
    cases ys with
    | nil => simpa using hasSub_nil zs
    | cons y ys' =>
      show (startsWith ((y :: ys') ++ zs) (y :: ys')
        || hasSub (ys' ++ zs) (y :: ys')) = true
      rw [startsWith_append (y :: ys') zs]
      simp
  | cons x xs ih =>
    show (startsWith (x :: (xs ++ (ys ++ zs))) ys
      || hasSub (xs ++ (ys ++ zs)) ys) = true
    rw [ih]
    simp

/-- String-level form: the middle of a three-part concatenation is a
substring of the whole. -/
theorem strIncludes_middle (a b c : String) :
    strIncludes (a ++ b ++ c) b = true := by
  unfold strIncludes
  rw [String.data_append, String.data_append, List.append_assoc]
  exact hasSub_append_middle a.data b.data c.data

/-- `findIndex` misses exactly when no element satisfies the predicate. -/
theorem findIndex_eq_none_iff {pred : Person → Bool} {l : List Person} :
    findIndex pred l = none ↔ ∀ p ∈ l, pred p = false := by
  induction l with
  | nil => simp [findIndex]
  | cons p ps ih =>
    by_cases hp : pred p = true
    · simp [findIndex, hp]
    · simp only [Bool.not_eq_true] at hp
      simp [findIndex, hp, ih]

/-- A hit of `findIndex` is an in-bounds index whose element satisfies the
predicate. -/
theorem findIndex_eq_some {pred : Person → Bool} {l : List Person} {i : Nat}
    (h : findIndex pred l = some i) :
    ∃ hi : i < l.length, pred (l.get ⟨i, hi⟩) = true := by
  induction l generalizing i with
  | nil => cases h
  | cons p ps ih =>
    by_cases hp : pred p = true
    · simp only [findIndex, hp, if_true, Option.some.injEq] at h
      subst h
      exact ⟨Nat.succ_le_succ (Nat.zero_le _), hp⟩
    · simp only [Bool.not_eq_true] at hp
      simp only [findIndex, hp, Bool.false_eq_true, if_false, Option.map_eq_some'] at h
      obtain ⟨j, hj, rfl⟩ := h
      obtain ⟨hjl, hjp⟩ := ih hj
      exact ⟨Nat.succ_lt_succ hjl, hjp⟩

/-- `findIndex` hits whenever some element satisfies the predicate. -/
theorem findIndex_isSome {pred : Person → Bool} {l : List Person}
    (h : ∃ p ∈ l, pred p = true) : ∃ i, findIndex pred l = some i := by
  rcases hf : findIndex pred l with _ | i
  · obtain ⟨p, hp, hpt⟩ := h
    rw [findIndex_eq_none_iff.mp hf p hp] at hpt
    cases hpt
  · exact ⟨i, rfl⟩

/-- In-bounds `getD` is `getElem`. -/
theorem getD_eq_getElem {l : List Person} {i : Nat} (h : i < l.length)
    (d : Person) : l.getD i d = l[i] := by
  simp [List.getD_eq_getElem?_getD, List.getElem?_eq_getElem h]

/-- The invariant, read off at a pair of distinct positions. -/
theorem invariant_getElem {people : List Person} (hinv : Invariant people)
    {i j : Nat} (hi : i < people.length) (hj : j < people.length)
    (hij : i ≠ j) :
    people[i].id ≠ people[j].id ∧
      lowerStr people[i].email ≠ lowerStr people[j].email := by
  rcases Nat.lt_or_ge i j with h | h
  · exact (List.pairwise_iff_getElem.mp hinv) i j hi hj h
  · have hlt : j < i := Nat.lt_of_le_of_ne h (fun e => hij e.symm)
    obtain ⟨h1, h2⟩ := (List.pairwise_iff_getElem.mp hinv) j i hj hi hlt
    exact ⟨h1.symm, h2.symm⟩

/-- `/add` preserves the collection invariant. -/
theorem addOp_preserves_invariant {db : DB} (r : AddReq)
    (hinv : Invariant db.people) : Invariant (addOp db r).1.people := by
  unfold addOp
  rcases hc : addEmailConflict db.people r.email with _ | existing
  · show Invariant (db.people ++
      [{ id := maxId db.people + 1, name := r.name, age := r.age,
         gender := r.gender, jobTitle := r.jobTitle, email := r.email }])
    unfold Invariant
    rw [List.pairwise_append]
    refine ⟨hinv, List.pairwise_singleton _ _, ?_⟩
    intro a ha b hb
    simp only [List.mem_singleton] at hb
    subst hb
    constructor
    · show a.id ≠ maxId db.people + 1
      have := le_maxId ha
      omega
    · show lowerStr a.email ≠ lowerStr r.email
      have hnone := List.find?_eq_none.mp hc a ha
      simpa using hnone
  · simpa using hinv

/-- `/update` preserves the collection invariant, provided a supplied
email is nonempty (as the tool layer's validation guarantees). -/
theorem updateOp_preserves_invariant {db : DB} {r : UpdateReq}
    (hinv : Invariant db.people)
    (hem : ∀ s, r.email = some s → s ≠ "") :
    Invariant (updateOp db r).1.people := by
  unfold updateOp
  rcases hf : findIndex (fun p => p.id == r.id) db.people with _ | i
  · simpa using hinv
  · rcases hc : updateConflict db.people r with _ | existing
    · obtain ⟨hi, hpi⟩ := findIndex_eq_some hf
      simp only [beq_iff_eq, List.get_eq_getElem] at hpi
      show Invariant
        (db.people.set i (mergePerson (db.people.getD i noPerson) r))
      set cur := db.people.getD i noPerson with hcur
      have hcur' : cur = db.people[i] := getD_eq_getElem hi noPerson
      unfold Invariant
      rw [List.pairwise_iff_getElem]
      intro a b ha hb hab
      rw [List.length_set] at ha hb
      have hmerge_id : (mergePerson cur r).id = db.people[i].id := by
        rw [← hcur']; rfl
      have hmerge_email :
          ∀ k (hk : k < db.people.length), k ≠ i →
            lowerStr (mergePerson cur r).email ≠ lowerStr db.people[k].email := by
        intro k hk hki
        rcases he : r.email with _ | s
        · have hmeml : (mergePerson cur r).email = db.people[i].email := by
            rw [← hcur']
            simp [mergePerson, he]
          rw [hmeml]
          exact ((invariant_getElem hinv hi hk (fun e => hki e.symm)).2)
        · have hs : s ≠ "" := hem s he
          have htr : optTruthy r.email = true := by
            simp [he, optTruthy, hs]
          have hme : (mergePerson cur r).email = s := by
            simp [mergePerson, he]
          rw [hme]
          intro heq
          have hnone : db.people.find? (fun p =>
              lowerStr p.email == lowerStr (r.email.getD "") && !(p.id == r.id))
              = none := by
            unfold updateConflict at hc
            rw [htr] at hc
            simpa using hc
          have hk' := List.find?_eq_none.mp hnone db.people[k]
            (List.getElem_mem hk)
          simp only [he, Option.getD_some, Bool.and_eq_true, Bool.not_eq_true',
            beq_iff_eq, beq_eq_false_iff_ne, not_and] at hk'
          have hkid : db.people[k].id = r.id := by
            by_contra hne
            exact hk' heq.symm hne
          have hiid : db.people[i].id = r.id := hpi
          exact ((invariant_getElem hinv hk hi hki).1) (hkid.trans hiid.symm)
      rw [List.getElem_set, List.getElem_set]
      by_cases hia : i = a
      · subst hia
        rw [if_pos rfl, if_neg (Nat.ne_of_lt hab)]
        constructor
        · rw [hmerge_id]
          exact (invariant_getElem hinv hi hb (Nat.ne_of_lt hab)).1
        · exact hmerge_email b hb (Nat.ne_of_gt hab)
      · rw [if_neg hia]
        by_cases hib : i = b
        · subst hib
          rw [if_pos rfl]
          constructor
          · rw [hmerge_id]
            exact (invariant_getElem hinv ha hi (fun e => hia e.symm)).1
          · exact fun heq =>
              hmerge_email a ha (fun e => hia e.symm) heq.symm
        · rw [if_neg hib]
          exact invariant_getElem hinv ha hb (Nat.ne_of_lt hab)
    · simpa using hinv

/-- `/delete` preserves the collection invariant. -/
theorem deleteOp_preserves_invariant {db : DB} (id : Nat)
    (hinv : Invariant db.people) : Invariant (deleteOp db id).1.people := by
  unfold deleteOp
  rcases hf : findIndex (fun p => p.id == id) db.people with _ | i
  · simpa using hinv
  · show Invariant (db.people.filter (fun p => !(p.id == id)))
    exact List.Pairwise.sublist (List.filter_sublist db.people) hinv

/-- Which string equals a three-part concatenation contains the middle part. -/
theorem strIncludes_of_eq (s a b c : String) (h : s = a ++ b ++ c) :
    strIncludes s b = true := by
  rw [h]
  exact strIncludes_middle a b c

/-- `dispatch` never touches the `initialized` flag. -/
theorem dispatch_initialized (db : DB) (req : Req) :
    (dispatch db req).1.initialized = db.initialized := by
  cases req with
  | search q => rfl
  | list => rfl
  | add r =>
    show (addOp db r).1.initialized = db.initialized
    unfold addOp
    rcases addEmailConflict db.people r.email with _ | e <;> rfl
  | update r =>
    show (updateOp db r).1.initialized = db.initialized
    unfold updateOp
    rcases findIndex (fun p => p.id == r.id) db.people with _ | i
    · rfl
    · rcases updateConflict db.people r with _ | e <;> rfl
  | delete id =>
    show (deleteOp db id).1.initialized = db.initialized
    unfold deleteOp
    rcases findIndex (fun p => p.id == id) db.people with _ | i <;> rfl
  | stats => rfl

/-- Hydration always ends with the `initialized` flag raised. -/
theorem initializeIfNeeded_initialized (db : DB) :
    (initializeIfNeeded db).initialized = true := by
  unfold initializeIfNeeded
  by_cases h : db.initialized = true
  · simp [h]
  · simp only [Bool.not_eq_true] at h
    simp only [h, Bool.false_eq_true, if_false]
    rcases db.store with _ | blob <;> rfl

/-! ### Claim theorems -/

/-- C3: hydration happens exactly once per actor instance.  On the first
operation with an absent blob the in-memory collection becomes the fixed
5-record seed set (the exact records are spelled out) and that seed is
written to the store; with a present blob the blob is adopted unchanged
and the store is not rewritten; an already-initialized instance is left
untouched (no store read), and after any `fetch` the instance is
initialized, so later operations skip hydration. -/
theorem hydration_exactly_once :
    (∀ p0 : List Person,
      initializeIfNeeded { people := p0, store := none, initialized := false } =
        { people := seedPeople, store := some seedPeople, initialized := true }) ∧
    seedPeople =
      [ { id := 1, name := "Sarah Johnson", age := 28, gender := "Female",
          jobTitle := "Software Engineer", email := "sarah.johnson@techcorp.com" },
        { id := 2, name := "Michael Chen", age := 34, gender := "Male",
          jobTitle := "Product Manager", email := "m.chen@innovate.io" },
        { id := 3, name := "Emma Rodriguez", age := 31, gender := "Female",
          jobTitle := "UX Designer", email := "emma.r@designstudio.com" },
        { id := 4, name := "James Wilson", age := 42, gender := "Male",
          jobTitle := "Data Scientist", email := "jwilson@datatech.org" },
        { id := 5, name := "Alex Thompson", age := 26, gender := "Non-binary",
          jobTitle := "DevOps Engineer", email := "alex.thompson@cloudops.net" } ] ∧
    (∀ (p0 blob : List Person),
      initializeIfNeeded { people := p0, store := some blob, initialized := false } =
        { people := blob, store := some blob, initialized := true }) ∧
    (∀ db : DB, db.initialized = true → initializeIfNeeded db = db) ∧
    (∀ (db : DB) (req : Req), (handle db req).1.initialized = true) := by
  refine ⟨fun p0 => rfl, rfl, fun p0 blob => rfl, ?_, ?_⟩
  · intro db h
    unfold initializeIfNeeded
    rw [h]
    rfl
  · intro db req
    unfold handle
    rw [dispatch_initialized]
    exact initializeIfNeeded_initialized db

/-- C3 witness: an already-initialized instance is served without touching
the store. -/
theorem hydration_exactly_once_witness :
    initializeIfNeeded
        { people := seedPeople, store := some seedPeople, initialized := true } =
      { people := seedPeople, store := some seedPeople, initialized := true } :=
  hydration_exactly_once.2.2.2.1
    { people := seedPeople, store := some seedPeople, initialized := true } rfl

/-- C4: when some record already holds the requested email up to ASCII
case, `/add` answers `Conflict` naming the first such owner, whose error
text contains the owner's name and id, and returns the state unchanged:
nothing is appended and the durable blob is not written. -/
theorem add_conflict_leaves_db_unchanged :
    ∀ (db : DB) (r : AddReq),
      (∃ p ∈ db.people, lowerStr p.email = lowerStr r.email) →
      ∃ q, addEmailConflict db.people r.email = some q ∧
        addOp db r = (db, .conflict q) ∧
        q ∈ db.people ∧ lowerStr q.email = lowerStr r.email ∧
        strIncludes (addConflictMsg r.email q) q.name = true ∧
        strIncludes (addConflictMsg r.email q) (toString q.id) = true := by
  intro db r h
  rcases hc : addEmailConflict db.people r.email with _ | q
  · obtain ⟨p, hp, he⟩ := h
    have := List.find?_eq_none.mp hc p hp
    simp only [beq_iff_eq] at this
    exact absurd he this
  · refine ⟨q, rfl, ?_, List.mem_of_find?_eq_some hc, ?_, ?_, ?_⟩
    · unfold addOp
      rw [hc]
    · have := List.find?_some hc
      simpa using this
    · exact strIncludes_of_eq _ ("Email \"" ++ r.email ++ "\" already exists for ")
        q.name (" (ID: " ++ toString q.id ++ ")")
        (by simp only [addConflictMsg, String.append_assoc])
    · exact strIncludes_of_eq _
        ("Email \"" ++ r.email ++ "\" already exists for " ++ q.name ++ " (ID: ")
        (toString q.id) ")"
        (by simp only [addConflictMsg, String.append_assoc])

/-- C4 witness: adding `sarah.johnson@TECHCORP.com` to the seed collection
conflicts with Sarah Johnson (id 1) and changes nothing. -/
theorem add_conflict_leaves_db_unchanged_witness :
    ∃ q, addEmailConflict db0.people "sarah.johnson@TECHCORP.com" = some q ∧
      addOp db0 ({ name := "Impostor", age := 30, gender := "Female",
                   jobTitle := "Spy",
                   email := "sarah.johnson@TECHCORP.com" }) =
        (db0, .conflict q) ∧
      q ∈ db0.people ∧
      lowerStr q.email = lowerStr "sarah.johnson@TECHCORP.com" ∧
      strIncludes (addConflictMsg "sarah.johnson@TECHCORP.com" q) q.name = true ∧
      strIncludes (addConflictMsg "sarah.johnson@TECHCORP.com" q)
        (toString q.id) = true :=
  add_conflict_leaves_db_unchanged db0
    { name := "Impostor", age := 30, gender := "Female",
      jobTitle := "Spy", email := "sarah.johnson@TECHCORP.com" }
    (by decide)

/-- C6: when no record carries the requested id, `/update` answers
`NotFound` carrying the id/name directory of every record and performs no
mutation at all: the returned state, its collection and its durable blob
are the input ones. -/
theorem update_notfound_leaves_db_unchanged :
    ∀ (db : DB) (r : UpdateReq),
      (∀ p ∈ db.people, p.id ≠ r.id) →
      updateOp db r =
        (db, .notFound (db.people.map (fun p => (p.id, p.name)))) := by
  intro db r h
  have hnone : findIndex (fun p => p.id == r.id) db.people = none :=
    findIndex_eq_none_iff.mpr (fun p hp => by
      simpa using h p hp)
  unfold updateOp
  rw [hnone]

/-- C6 witness: updating id 42 on the seed collection reports `NotFound`
with the five seeded id/name pairs and leaves the state untouched. -/
theorem update_notfound_leaves_db_unchanged_witness :
    updateOp db0 ({ id := 42, name := none, age := some 33, gender := none,
                    jobTitle := none, email := none }) =
      (db0, .notFound [(1, "Sarah Johnson"), (2, "Michael Chen"),
        (3, "Emma Rodriguez"), (4, "James Wilson"), (5, "Alex Thompson")]) := by
  have h := update_notfound_leaves_db_unchanged db0
    { id := 42, name := none, age := some 33, gender := none,
      jobTitle := none, email := none } (by decide)
  rw [h]
  rfl

/-- C8: the empty query is rejected with the query-required error
independently of the collection; whenever a non-empty query has a
matching record, `searchOp` does return a `found` answer; a `found`
answer is the first record in insertion order whose name contains the
query as a case-insensitive substring; when nothing matches, the answer
is `NoMatch` carrying every current name; and the match is
case-insensitive: searching the seed for "SARAH" returns the seeded
"Sarah Johnson" record. -/
theorem search_first_ci_match :
    (∀ people : List Person, searchOp people "" = .missingQuery) ∧
    (∀ (people : List Person) (q : String), q ≠ "" →
      (∃ a ∈ people, nameMatches a q = true) →
      ∃ p, searchOp people q = .found p) ∧
    (∀ (people : List Person) (q : String) (p : Person),
      searchOp people q = .found p →
        p ∈ people ∧ nameMatches p q = true ∧
        ∃ l1 l2, people = l1 ++ p :: l2 ∧ ∀ a ∈ l1, nameMatches a q = false) ∧
    (∀ (people : List Person) (q : String), q ≠ "" →
      (∀ a ∈ people, nameMatches a q = false) →
      searchOp people q = .noMatch (people.map (fun p => p.name))) ∧
    searchOp seedPeople "SARAH" =
      .found ({ id := 1, name := "Sarah Johnson", age := 28,
                gender := "Female", jobTitle := "Software Engineer",
                email := "sarah.johnson@techcorp.com" }) := by
  refine ⟨fun people => rfl, ?_, ?_, ?_, by decide⟩
  · intro people q hq hex
    rcases hf : people.find? (fun p => nameMatches p q) with _ | p'
    · obtain ⟨a, ha, ham⟩ := hex
      have := List.find?_eq_none.mp hf a ha
      rw [ham] at this
      cases this rfl
    · refine ⟨p', ?_⟩
      unfold searchOp
      rw [if_neg (by simpa using hq), hf]
  · intro people q p h
    unfold searchOp at h
    by_cases hq : (q == "") = true
    · rw [if_pos hq] at h
      cases h
    · rw [if_neg (by simpa using hq)] at h
      rcases hf : people.find? (fun p => nameMatches p q) with _ | p'
      · rw [hf] at h
        cases h
      · rw [hf] at h
        cases h
        obtain ⟨hpm, l1, l2, hsplit, hbefore⟩ := List.find?_eq_some.mp hf
        refine ⟨List.mem_of_find?_eq_some hf, hpm, l1, l2, hsplit, ?_⟩
        intro a ha
        simpa using hbefore a ha
  · intro people q hq h
    have hnone : people.find? (fun p => nameMatches p q) = none :=
      List.find?_eq_none.mpr (fun a ha => by simp [h a ha])
    unfold searchOp
    rw [if_neg (by simpa using hq), hnone]

/-- C8 witness: the non-empty query "SARAH" has a match in the seed, so
the search is guaranteed to return a `found` record. -/
theorem search_first_ci_match_witness :
    ∃ p, searchOp seedPeople "SARAH" = SearchResult.found p :=
  search_first_ci_match.2.1 seedPeople "SARAH" (by decide) (by decide)

/-- A conflict-free `/add` appends exactly one record carrying the
request's fields and the freshly recomputed id, and persists. -/
theorem addOp_ok_of_no_conflict {db : DB} {r : AddReq}
    (h : addEmailConflict db.people r.email = none) :
    ∃ p, addOp db r =
        ({ people := db.people ++ [p], store := some (db.people ++ [p]),
           initialized := db.initialized }, .ok p) ∧
      p.id = maxId db.people + 1 ∧ p.name = r.name ∧ p.age = r.age ∧
      p.gender = r.gender ∧ p.jobTitle = r.jobTitle ∧ p.email = r.email := by
  refine ⟨{ id := maxId db.people + 1, name := r.name, age := r.age,
            gender := r.gender, jobTitle := r.jobTitle, email := r.email },
    ?_, rfl, rfl, rfl, rfl, rfl, rfl⟩
  unfold addOp
  rw [h]

/-- C1 counterexample: deleting down to ids 1 and 5, the record with id 5
holds the current maximum; after deleting it, the next successful add is
assigned id 2, not the freed id 5 — the claim's "reuses that id" fails. -/
theorem add_reuse_counterexample :
    ((deleteOp (deleteOp (deleteOp db0 2).1 3).1 4).1.people.map
        (fun p => p.id) = [1, 5]) ∧
    (∀ q ∈ (deleteOp (deleteOp (deleteOp db0 2).1 3).1 4).1.people,
      q.id ≤ 5) ∧
    ((addOp (deleteOp (deleteOp (deleteOp (deleteOp db0 2).1 3).1 4).1 5).1
        danaReq).2 =
      .ok ({ id := 2, name := "Dana Lee", age := 29, gender := "Female",
             jobTitle := "Analyst", email := "dana@x.com" })) ∧
    (2 : Nat) ≠ 5 := by
  decide

/-- C1 (amended): a conflict-free add appends at the end a record with id
`max(existing ids, 0) + 1`; after deleting the record holding the current
maximum id m, the next successful add's id is recomputed from the
remaining records as `max(remaining ids, 0) + 1`, which equals the freed
id m exactly when the remaining maximum is m - 1 (as with contiguous
ids), and is lower otherwise. -/
theorem add_assigns_recomputed_max_id :
    (∀ (db : DB) (r : AddReq),
      addEmailConflict db.people r.email = none →
      ∃ p, addOp db r =
          ({ people := db.people ++ [p], store := some (db.people ++ [p]),
             initialized := db.initialized }, .ok p) ∧
        p.id = maxId db.people + 1 ∧ p.name = r.name ∧ p.age = r.age ∧
        p.gender = r.gender ∧ p.jobTitle = r.jobTitle ∧ p.email = r.email) ∧
    (∀ (db : DB) (m : Nat) (r : AddReq),
      (∃ q ∈ db.people, q.id = m) → (∀ q ∈ db.people, q.id ≤ m) → 0 < m →
      addEmailConflict (deleteOp db m).1.people r.email = none →
      ∃ p, (addOp (deleteOp db m).1 r).2 = .ok p ∧
        p.id = maxId (deleteOp db m).1.people + 1 ∧
        (p.id = m ↔ maxId (deleteOp db m).1.people = m - 1)) := by
  refine ⟨fun db r h => addOp_ok_of_no_conflict h, ?_⟩
  intro db m r hmem hmax hm h
  obtain ⟨p, heq, hid, _⟩ := addOp_ok_of_no_conflict h
  refine ⟨p, by rw [heq], hid, ?_⟩
  rw [hid]
  omega

/-- C1 (amended) witness: on the hydrated seed, adding Dana Lee succeeds
with id `maxId + 1`. -/
theorem add_assigns_recomputed_max_id_witness :
    ∃ p, addOp db0 danaReq =
        ({ people := db0.people ++ [p], store := some (db0.people ++ [p]),
           initialized := db0.initialized }, .ok p) ∧
      p.id = maxId db0.people + 1 ∧ p.name = danaReq.name ∧
      p.age = danaReq.age ∧ p.gender = danaReq.gender ∧
      p.jobTitle = danaReq.jobTitle ∧ p.email = danaReq.email :=
  add_assigns_recomputed_max_id.1 db0 danaReq (by decide)

/-- C5: `mergePerson` keeps the id, takes exactly the provided fields and
keeps every unspecified one; a found, conflict-free `/update` replaces
only the record at the found index with the merged record, persists, and
leaves every other position of the collection unchanged; an update
supplying only an age keeps name, gender, job title and email identical. -/
theorem update_replaces_only_provided_fields :
    (∀ (cur : Person) (r : UpdateReq),
      (mergePerson cur r).id = cur.id ∧
      (∀ v, r.name = some v → (mergePerson cur r).name = v) ∧
      (∀ v, r.age = some v → (mergePerson cur r).age = v) ∧
      (∀ v, r.gender = some v → (mergePerson cur r).gender = v) ∧
      (∀ v, r.jobTitle = some v → (mergePerson cur r).jobTitle = v) ∧
      (∀ v, r.email = some v → (mergePerson cur r).email = v) ∧
      (r.name = none → (mergePerson cur r).name = cur.name) ∧
      (r.age = none → (mergePerson cur r).age = cur.age) ∧
      (r.gender = none → (mergePerson cur r).gender = cur.gender) ∧
      (r.jobTitle = none → (mergePerson cur r).jobTitle = cur.jobTitle) ∧
      (r.email = none → (mergePerson cur r).email = cur.email) ∧
      (r.name = none → r.gender = none → r.jobTitle = none → r.email = none →
        mergePerson cur r = { cur with age := r.age.getD cur.age })) ∧
    (∀ (db : DB) (r : UpdateReq) (i : Nat),
      findIndex (fun p => p.id == r.id) db.people = some i →
      updateConflict db.people r = none →
      (db.people.getD i noPerson).id = r.id ∧
      updateOp db r =
        ({ people :=
             db.people.set i (mergePerson (db.people.getD i noPerson) r),
           store := some
             (db.people.set i (mergePerson (db.people.getD i noPerson) r)),
           initialized := db.initialized },
         .ok (mergePerson (db.people.getD i noPerson) r)) ∧
      (∀ j, j ≠ i →
        (db.people.set i (mergePerson (db.people.getD i noPerson) r)).getD
            j noPerson = db.people.getD j noPerson)) := by
  constructor
  · intro cur r
    refine ⟨rfl, ?_, ?_, ?_, ?_, ?_, ?_, ?_, ?_, ?_, ?_, ?_⟩
    · intro v hv
      simp [mergePerson, hv]
    · intro v hv
      simp [mergePerson, hv]
    · intro v hv
      simp [mergePerson, hv]
    · intro v hv
      simp [mergePerson, hv]
    · intro v hv
      simp [mergePerson, hv]
    · intro hv
      simp [mergePerson, hv]
    · intro hv
      simp [mergePerson, hv]
    · intro hv
      simp [mergePerson, hv]
    · intro hv
      simp [mergePerson, hv]
    · intro hv
      simp [mergePerson, hv]
    · intro h1 h2 h3 h4
      simp [mergePerson, h1, h2, h3, h4]
  · intro db r i hf hc
    obtain ⟨hi, hpi⟩ := findIndex_eq_some hf
    refine ⟨?_, ?_, ?_⟩
    · rw [getD_eq_getElem hi noPerson]
      simpa using hpi
    · unfold updateOp
      rw [hf, hc]
    · intro j hj
      simp [List.getD_eq_getElem?_getD, List.getElem?_set_ne hj.symm]

/-- C5 witness: updating only the age of id 3 on the hydrated seed
replaces exactly that record with its age changed. -/
theorem update_replaces_only_provided_fields_witness :
    (db0.people.getD 2 noPerson).id = 3 ∧
    updateOp db0 ageOnlyReq =
      ({ people :=
           db0.people.set 2 (mergePerson (db0.people.getD 2 noPerson) ageOnlyReq),
         store := some
           (db0.people.set 2 (mergePerson (db0.people.getD 2 noPerson) ageOnlyReq)),
         initialized := db0.initialized },
       .ok (mergePerson (db0.people.getD 2 noPerson) ageOnlyReq)) := by
  have h := update_replaces_only_provided_fields.2 db0 ageOnlyReq 2
    (by decide) (by decide)
  exact ⟨h.1, h.2.1⟩

/-- C7: `/delete` of a present id removes every record with that id,
persists the remainder and returns the pre-delete snapshot, and answers
`NotFound` with the id/name directory otherwise; but no remaining count is
returned: the `delete_person` tool's remaining-count display is the
constant "Unknown", because the agent class declares no `people` field.
On the seed, deleting id 5 returns the Alex Thompson snapshot and leaves
4 records, yet the tool displays "Unknown" instead of 4. -/
theorem delete_snapshot_but_count_unknown :
    (∀ (db : DB) (id i : Nat),
      findIndex (fun p => p.id == id) db.people = some i →
      deleteOp db id =
        ({ people := db.people.filter (fun p => !(p.id == id)),
           store := some (db.people.filter (fun p => !(p.id == id))),
           initialized := db.initialized },
         .ok (db.people.getD i noPerson))) ∧
    (∀ (db : DB) (id : Nat),
      (∀ p ∈ db.people, p.id ≠ id) →
      deleteOp db id =
        (db, .notFound (db.people.map (fun p => (p.id, p.name))))) ∧
    mcpAgentPeople = none ∧
    deleteRemainingDisplay = "Unknown" ∧
    (deleteOp db0 5).2 =
      .ok ({ id := 5, name := "Alex Thompson", age := 26,
             gender := "Non-binary", jobTitle := "DevOps Engineer",
             email := "alex.thompson@cloudops.net" }) ∧
    (deleteOp db0 5).1.people.length = 4 ∧
    deleteRemainingDisplay ≠ "4" := by
  refine ⟨?_, ?_, rfl, rfl, by decide, by decide, by decide⟩
  · intro db id i hf
    unfold deleteOp
    rw [hf]
  · intro db id h
    have hnone : findIndex (fun p => p.id == id) db.people = none :=
      findIndex_eq_none_iff.mpr (fun p hp => by simpa using h p hp)
    unfold deleteOp
    rw [hnone]

/-- C7 witness: deleting id 5 from the hydrated seed filters it out and
snapshots the record at the found index 4. -/
theorem delete_snapshot_but_count_unknown_witness :
    deleteOp db0 5 =
      ({ people := db0.people.filter (fun p => !(p.id == 5)),
         store := some (db0.people.filter (fun p => !(p.id == 5))),
         initialized := db0.initialized },
       .ok (db0.people.getD 4 noPerson)) :=
  delete_snapshot_but_count_unknown.1 db0 5 4 (by decide)

/-- C9: whenever the requested age lies outside [1,120] or the email
fails the (abstracted) zod syntax check, the `add_person` tool reports
invalid input without invoking the durable object at all — the collection
and the durable blob are returned unchanged and no record is created;
with valid input the tool forwards to the hydrated `/add` route. -/
theorem add_person_invalid_input_no_mutation :
    (∀ (emailValid : String → Bool) (db : DB) (r : AddReq),
      (r.age < 1 ∨ 120 < r.age ∨ emailValid r.email = false) →
      addPersonTool emailValid db r = (db, .invalidInput)) ∧
    (∀ (emailValid : String → Bool) (db : DB) (r : AddReq),
      1 ≤ r.age → r.age ≤ 120 → emailValid r.email = true →
      addPersonTool emailValid db r =
        ((addOp (initializeIfNeeded db) r).1,
         .dbResult (addOp (initializeIfNeeded db) r).2)) := by
  constructor
  · intro emailValid db r h
    rcases h with h | h | h
    · have hd : decide (1 ≤ r.age) = false := decide_eq_false (by omega)
      simp [addPersonTool, hd]
    · have hd : decide (r.age ≤ 120) = false := decide_eq_false (by omega)
      simp [addPersonTool, hd]
    · simp [addPersonTool, h]
  · intro emailValid db r h1 h2 h3
    have d1 : decide (1 ≤ r.age) = true := decide_eq_true h1
    have d2 : decide (r.age ≤ 120) = true := decide_eq_true h2
    simp [addPersonTool, d1, d2, h3]

/-- C9 witness: an age of 0 is rejected before any state is touched, even
on a never-hydrated instance. -/
theorem add_person_invalid_input_no_mutation_witness :
    addPersonTool emailValid0
        ({ people := [], store := none, initialized := false })
        ({ name := "Too Young", age := 0, gender := "Female",
           jobTitle := "None", email := "baby@x.com" }) =
      ({ people := [], store := none, initialized := false }, .invalidInput) :=
  add_person_invalid_input_no_mutation.1 emailValid0
    ({ people := [], store := none, initialized := false })
    ({ name := "Too Young", age := 0, gender := "Female",
       jobTitle := "None", email := "baby@x.com" })
    (Or.inl (by decide))

/-- Filtering a cons adds one to the length exactly when the head passes. -/
theorem length_filter_cons (pred : Person → Bool) (p : Person)
    (l : List Person) :
    (List.filter pred (p :: l)).length
      = cond (pred p) 1 0 + (List.filter pred l).length := by
  rw [List.filter_cons]
  cases h : pred p <;> simp [Nat.add_comm]

/-- Per record, the four bracket indicators sum to the adult indicator. -/
theorem bracket_indicator (a : Person) :
    cond (inAge18to25 a) 1 0 + cond (inAge26to35 a) 1 0
      + cond (inAge36to45 a) 1 0 + cond (inAge46plus a) 1 0
      = cond (decide (18 ≤ a.age)) 1 0 := by
  unfold inAge18to25 inAge26to35 inAge36to45 inAge46plus
  rw [← Bool.decide_and, ← Bool.decide_and, ← Bool.decide_and]
  rw [Bool.cond_decide, Bool.cond_decide, Bool.cond_decide, Bool.cond_decide,
    Bool.cond_decide]
  split_ifs <;> omega

/-- The four bracket filters' lengths sum to the adult filter's length. -/
theorem filters_sum (people : List Person) :
    (people.filter inAge18to25).length + (people.filter inAge26to35).length
      + (people.filter inAge36to45).length
      + (people.filter inAge46plus).length
      = (people.filter (fun p => decide (18 ≤ p.age))).length := by
  induction people with
  | nil => rfl
  | cons p ps ih =>
    rw [length_filter_cons, length_filter_cons, length_filter_cons,
      length_filter_cons, length_filter_cons]
    have hi := bracket_indicator p
    omega

/-- C10: the four age-bracket counts of `/stats` sum to the number of
records aged at least 18; a record aged in [1,17] is counted by no
bracket, so with such a record present the bracket sum is strictly below
the returned total count (shown on the seed plus a 10-year-old). -/
theorem stats_bracket_sum_undercounts :
    (∀ people : List Person,
      bracketSum (statsOp people) =
        (people.filter (fun p => decide (18 ≤ p.age))).length) ∧
    (∀ people : List Person, (statsOp people).totalPeople = people.length) ∧
    (∀ p : Person, 1 ≤ p.age → p.age ≤ 17 → inSomeBracket p = false) ∧
    bracketSum (statsOp (seedPeople ++ [kidPerson]))
      < (statsOp (seedPeople ++ [kidPerson])).totalPeople := by
  refine ⟨?_, fun people => rfl, ?_, by decide⟩
  · intro people
    show (people.filter inAge18to25).length + (people.filter inAge26to35).length
      + (people.filter inAge36to45).length + (people.filter inAge46plus).length
      = (people.filter (fun p => decide (18 ≤ p.age))).length
    exact filters_sum people
  · intro p h1 h2
    unfold inSomeBracket inAge18to25 inAge26to35 inAge36to45 inAge46plus
    have d1 : decide (18 ≤ p.age) = false := decide_eq_false (by omega)
    have d2 : decide (26 ≤ p.age) = false := decide_eq_false (by omega)
    have d3 : decide (36 ≤ p.age) = false := decide_eq_false (by omega)
    have d4 : decide (46 ≤ p.age) = false := decide_eq_false (by omega)
    simp [d1, d2, d3, d4]

/-- C10 witness: the 10-year-old record is counted by no bracket. -/
theorem stats_bracket_sum_undercounts_witness :
    inSomeBracket kidPerson = false :=
  stats_bracket_sum_undercounts.2.2.1 kidPerson (by decide) (by decide)

/-- One unfolding step of `runAdds`. -/
theorem runAdds_cons (db : DB) (r : AddReq) (rs : List AddReq) :
    runAdds db (r :: rs) =
      ((runAdds (addOp db r).1 rs).1,
        (match (addOp db r).2 with | .ok _ => 1 | .conflict _ => 0)
          + (runAdds (addOp db r).1 rs).2) := rfl

/-- Along any sequence of adds, the length grows by exactly the number of
successful adds and the invariant is preserved. -/
theorem runAdds_len_inv :
    ∀ (reqs : List AddReq) (db : DB), Invariant db.people →
      (runAdds db reqs).1.people.length
          = db.people.length + (runAdds db reqs).2 ∧
      Invariant (runAdds db reqs).1.people := by
  intro reqs
  induction reqs with
  | nil => exact fun db h => ⟨rfl, h⟩
  | cons r rs ih =>
    intro db h
    rcases hc : addEmailConflict db.people r.email with _ | e
    · obtain ⟨p, heq, hid, _⟩ := addOp_ok_of_no_conflict hc
      have hinv' : Invariant ((addOp db r).1).people :=
        addOp_preserves_invariant r h
      obtain ⟨ihl, ihi⟩ := ih (addOp db r).1 hinv'
      rw [runAdds_cons]
      rw [heq] at ihl ihi ⊢
      simp only [List.length_append, List.length_cons, List.length_nil] at ihl ihi ⊢
      exact ⟨by omega, ihi⟩
    · have heq : addOp db r = (db, .conflict e) := by
        unfold addOp
        rw [hc]
      obtain ⟨ihl, ihi⟩ := ih (addOp db r).1
        (by rw [heq]; exact h)
      rw [runAdds_cons]
      rw [heq] at ihl ihi ⊢
      simp only [] at ihl ihi ⊢
      exact ⟨by omega, ihi⟩

/-- C2: every dispatched operation preserves the uniqueness invariant
(for `/update`, under the tool layer's guarantee that a provided email is
nonempty), and every sequence of adds with pairwise-distinct emails run
from the hydrated seed yields pairwise-distinct ids and a final collection
length equal to the seed count plus the number of successful adds. -/
theorem ops_preserve_invariant :
    (∀ (db : DB) (req : Req), Invariant db.people → reqEmailOk req →
      Invariant (dispatch db req).1.people) ∧
    (∀ reqs : List AddReq,
      reqs.Pairwise (fun a b => lowerStr a.email ≠ lowerStr b.email) →
      (runAdds db0 reqs).1.people.length
          = seedPeople.length + (runAdds db0 reqs).2 ∧
      ((runAdds db0 reqs).1.people.map (fun p => p.id)).Nodup) := by
  constructor
  · intro db req hinv hok
    cases req with
    | search q => exact hinv
    | list => exact hinv
    | add r => exact addOp_preserves_invariant r hinv
    | update r => exact updateOp_preserves_invariant hinv hok
    | delete id => exact deleteOp_preserves_invariant id hinv
    | stats => exact hinv
  · intro reqs hdist
    have h0 : Invariant db0.people := by decide
    obtain ⟨hl, hi⟩ := runAdds_len_inv reqs db0 h0
    refine ⟨hl, ?_⟩
    show ((runAdds db0 reqs).1.people.map (fun p => p.id)).Pairwise
      (fun a b => a ≠ b)
    rw [List.pairwise_map]
    exact hi.imp (fun hpq => hpq.1)

/-- C2 witness: after one successful add on the hydrated seed, the
invariant still holds. -/
theorem ops_preserve_invariant_witness :
    Invariant (dispatch db0 (Req.add danaReq)).1.people :=
  ops_preserve_invariant.1 db0 (Req.add danaReq) (by decide) trivial

end PeopleDB
